import Mathlib

/-!
Verification of the rating, odds and backtest engine of the sportsball
repository.  Python sources are embedded shallowly: floating-point
arithmetic is modelled by exact rationals (with real numbers only where
the source applies `math.exp` or `math.sqrt`), Python integers by `Int`
or `Nat`, and the `round` builtin by round-half-to-even, which is the
rounding rule of the host (see the repository design notes).  Where a
claim turns on the binary64 behaviour itself, the exact rational values
of the doubles involved are stated and certified by half-ulp bounds.
-/

namespace Sportsball

/-! ### Rounding (Python `round` builtin, round half to even) -/

/-- Model of the Python `round(x)` builtin on a non-integer-typed value:
round to the nearest integer, ties to even. -/
def pyRound {α : Type} [LinearOrderedField α] [FloorRing α] (x : α) : ℤ :=
  if x - ⌊x⌋ < 1/2 then ⌊x⌋
  else if 1/2 < x - ⌊x⌋ then ⌊x⌋ + 1
  else if Even ⌊x⌋ then ⌊x⌋ else ⌊x⌋ + 1

/-- Model of Python `round(x, d)` for `d` decimal digits. -/
def pyRoundAt {α : Type} [LinearOrderedField α] [FloorRing α] (x : α) (d : ℕ) : α :=
  (pyRound (x * (10 : α) ^ d) : α) / (10 : α) ^ d

theorem pyRound_eq_floor_or_succ {α : Type} [LinearOrderedField α] [FloorRing α] (x : α) :
    pyRound x = ⌊x⌋ ∨ pyRound x = ⌊x⌋ + 1 := by
  unfold pyRound
  split_ifs <;> simp

theorem pyRound_nonneg {α : Type} [LinearOrderedField α] [FloorRing α]
    (x : α) (hx : 0 ≤ x) : 0 ≤ pyRound x := by
  have h0 : (0 : ℤ) ≤ ⌊x⌋ := by
    rw [Int.le_floor]; exact_mod_cast hx
  rcases pyRound_eq_floor_or_succ x with h | h <;> omega

theorem pyRound_le {α : Type} [LinearOrderedField α] [FloorRing α]
    (x : α) (n : ℤ) (hx : x ≤ (n : α)) : pyRound x ≤ n := by
  have hfl : ⌊x⌋ ≤ n := by
    rw [Int.floor_le_iff]; exact lt_of_le_of_lt hx (by exact_mod_cast lt_add_one (n : α))
  rcases pyRound_eq_floor_or_succ x with h | h
  · omega
  · by_cases hlt : ⌊x⌋ < n
    · omega
    · -- then ⌊x⌋ = n, and x ≤ n forces the fractional part to be 0,
      -- so the `⌊x⌋ + 1` branches of pyRound cannot fire
      have heq : ⌊x⌋ = n := le_antisymm hfl (not_lt.mp hlt)
      have hxn : x = (n : α) := by
        have h1 : (n : α) ≤ x := by rw [← heq]; exact Int.floor_le x
        exact le_antisymm hx h1
      have hfrac : x - ⌊x⌋ < 1/2 := by
        rw [hxn, Int.floor_intCast]
        norm_num
      unfold pyRound at h
      rw [if_pos hfrac] at h
      omega

/-! ### build_odds.py : constants -/

def HOME_FIELD_ADVANTAGE : ℚ := 2.5
def LOGISTIC_K : ℚ := 0.145
def VIG_PERCENT : ℚ := 0.0476

/-! ### build_odds.py : prob_to_american_odds and apply_vig -/

/-- `prob_to_american_odds` (build_odds.py lines 26-38). -/
def probToAmericanOdds {α : Type} [LinearOrderedField α] [FloorRing α] (prob : α) : ℤ :=
  if prob ≤ 0 then 10000
  else if 1 ≤ prob then -10000
  else if 1/2 ≤ prob then pyRound (-100 * prob / (1 - prob))
  else pyRound (100 * (1 - prob) / prob)

/-- The probability adjusted for vigorish inside `apply_vig`
(build_odds.py lines 44-45): inflate by the vig and cap at 0.99. -/
def vigAdjustedProb (fair_prob : ℝ) : ℝ :=
  min (fair_prob * (1 + (VIG_PERCENT : ℝ))) 0.99

/-- `apply_vig` (build_odds.py lines 41-46). -/
noncomputable def applyVig (fair_prob : ℝ) : ℤ :=
  probToAmericanOdds (vigAdjustedProb fair_prob)

/-! ### build_odds.py : power ratings and matchup odds

Team stats enter `build_odds.py` as dictionaries produced by
`compute_team_stats.py`, which always populates the four fields read by
`calculate_power_rating` and `calculate_matchup_odds`; the `dict.get`
defaults for individually missing keys therefore never fire and are not
modelled.  A team absent from the stats file is modelled as `none`. -/

structure TeamStatsIn where
  ppg_scored : ℚ
  ppg_allowed : ℚ
  last_5_ppg : ℚ
  last_5_ppg_allowed : ℚ
deriving DecidableEq

/-- `calculate_power_rating` (build_odds.py lines 49-68):
`0.7 * (ppg - ppg_allowed) + 0.3 * (last_5_ppg - last_5_ppg_allowed)`,
and `0.0` when the stats dictionary is missing. -/
def calculatePowerRating : Option TeamStatsIn → ℚ
  | none => 0
  | some s => 0.7 * (s.ppg_scored - s.ppg_allowed)
      + 0.3 * (s.last_5_ppg - s.last_5_ppg_allowed)

/-- `home_stats.get("ppg_scored", 21.0) if home_stats else 21.0`
(build_odds.py lines 90-91). -/
def ppgScoredOr21 : Option TeamStatsIn → ℚ
  | none => 21
  | some s => s.ppg_scored

/-- `home_stats.get("ppg_allowed", 21.0) if home_stats else 21.0`
(build_odds.py lines 92-93). -/
def ppgAllowedOr21 : Option TeamStatsIn → ℚ
  | none => 21
  | some s => s.ppg_allowed

/-- `expected_diff` (build_odds.py line 77). -/
def expectedDiff (home_stats away_stats : Option TeamStatsIn) : ℚ :=
  (calculatePowerRating home_stats - calculatePowerRating away_stats)
    + HOME_FIELD_ADVANTAGE

/-- `home_win_prob = 1 / (1 + exp(-LOGISTIC_K * expected_diff))`
(build_odds.py line 80). -/
noncomputable def homeWinProb (home_stats away_stats : Option TeamStatsIn) : ℝ :=
  1 / (1 + Real.exp (-(LOGISTIC_K : ℝ) * (expectedDiff home_stats away_stats : ℝ)))

/-- The fair away-side probability `1 - home_win_prob`
(build_odds.py lines 84 and 109). -/
noncomputable def awayWinProb (home_stats away_stats : Option TeamStatsIn) : ℝ :=
  1 - homeWinProb home_stats away_stats

/-- `spread = -round(expected_diff * 2) / 2` (build_odds.py line 87). -/
def spreadOf (home_stats away_stats : Option TeamStatsIn) : ℚ :=
  -(pyRound (expectedDiff home_stats away_stats * 2) : ℚ) / 2

/-- `total` (build_odds.py lines 96-101): average the two offence/defence
estimates and quantize to the half-point grid. -/
def overUnderOf (home_stats away_stats : Option TeamStatsIn) : ℚ :=
  let home_ppg := ppgScoredOr21 home_stats
  let away_ppg := ppgScoredOr21 away_stats
  let home_allowed := ppgAllowedOr21 home_stats
  let away_allowed := ppgAllowedOr21 away_stats
  let method1 := home_ppg + away_allowed
  let method2 := away_ppg + home_allowed
  (pyRound ((method1 + method2) / 2 * 2) : ℚ) / 2

/-- `home_total` (build_odds.py line 104). -/
def homeTeamTotalOf (home_stats away_stats : Option TeamStatsIn) : ℚ :=
  (pyRound (((ppgScoredOr21 home_stats + ppgAllowedOr21 away_stats) / 2 + 1.25) * 2) : ℚ) / 2

/-- `away_total` (build_odds.py line 105). -/
def awayTeamTotalOf (home_stats away_stats : Option TeamStatsIn) : ℚ :=
  (pyRound (((ppgScoredOr21 away_stats + ppgAllowedOr21 home_stats) / 2 - 1.25) * 2) : ℚ) / 2

/-- The dictionary returned by `calculate_matchup_odds`
(build_odds.py lines 107-121).  Probability fields carry the
`round(p, 3)` applied at lines 108-109. -/
structure MatchupOdds where
  home_win_prob : ℝ
  away_win_prob : ℝ
  home_moneyline : ℤ
  away_moneyline : ℤ
  spread : ℚ
  spread_home_odds : ℤ
  spread_away_odds : ℤ
  over_under : ℚ
  over_odds : ℤ
  under_odds : ℤ
  home_team_total : ℚ
  away_team_total : ℚ
  expected_diff : ℚ

/-- `calculate_matchup_odds` (build_odds.py lines 71-121). -/
noncomputable def calculateMatchupOdds (home_stats away_stats : Option TeamStatsIn) : MatchupOdds :=
  { home_win_prob := pyRoundAt (homeWinProb home_stats away_stats) 3
    away_win_prob := pyRoundAt (awayWinProb home_stats away_stats) 3
    home_moneyline := applyVig (homeWinProb home_stats away_stats)
    away_moneyline := applyVig (awayWinProb home_stats away_stats)
    spread := spreadOf home_stats away_stats
    spread_home_odds := -110
    spread_away_odds := -110
    over_under := overUnderOf home_stats away_stats
    over_odds := -110
    under_odds := -110
    home_team_total := homeTeamTotalOf home_stats away_stats
    away_team_total := awayTeamTotalOf home_stats away_stats
    expected_diff := pyRoundAt (expectedDiff home_stats away_stats) 1 }

/-- Classification of a completed game against the spread
(build_odds.py lines 210-213): `margin = actual_diff + spread`,
`"push"` when the margin is zero, `"cover"` when positive, `"miss"`
when negative. -/
inductive SpreadResult where
  | push
  | cover
  | miss
deriving DecidableEq

def spreadResult (actual_diff : ℤ) (spread : ℚ) : SpreadResult :=
  if (actual_diff : ℚ) + spread = 0 then .push
  else if 0 < (actual_diff : ℚ) + spread then .cover
  else .miss

/-! ### Games and team records (compute_advanced_stats.py) -/

/-- A game row as consumed by `get_team_records` and
`compute_team_stats`.  Rows with NULL scores are skipped by the source
and are not modelled; `is_completed` carries the completion filter. -/
structure Game where
  home_team : String
  away_team : String
  home_score : ℤ
  away_score : ℤ
  is_completed : Bool
deriving DecidableEq

/-- One entry of the `records` dictionary built by `get_team_records`
(compute_advanced_stats.py lines 40-41). -/
structure TeamRecord where
  wins : ℕ
  losses : ℕ
  ties : ℕ
  pf : ℤ
  pa : ℤ
  opponents : List String
deriving DecidableEq

def emptyRecord : TeamRecord := ⟨0, 0, 0, 0, 0, []⟩

/-- The per-game update of `get_team_records`
(compute_advanced_stats.py lines 43-65), phrased per team: the home team
is credited with `home_score` for / `away_score` against and the away
opponent (and symmetrically for the away team), then exactly one of
win / loss / tie is credited to each side. -/
def recordGame (g : Game) (recs : String → TeamRecord) : String → TeamRecord :=
  fun t =>
    let r := recs t
    { wins := r.wins + (if t = g.home_team ∧ g.away_score < g.home_score then 1 else 0)
        + (if t = g.away_team ∧ g.home_score < g.away_score then 1 else 0)
      losses := r.losses + (if t = g.home_team ∧ g.home_score < g.away_score then 1 else 0)
        + (if t = g.away_team ∧ g.away_score < g.home_score then 1 else 0)
      ties := r.ties + (if t = g.home_team ∧ g.home_score = g.away_score then 1 else 0)
        + (if t = g.away_team ∧ g.home_score = g.away_score then 1 else 0)
      pf := r.pf + (if t = g.home_team then g.home_score else 0)
        + (if t = g.away_team then g.away_score else 0)
      pa := r.pa + (if t = g.home_team then g.away_score else 0)
        + (if t = g.away_team then g.home_score else 0)
      opponents := r.opponents ++ (if t = g.home_team then [g.away_team] else [])
        ++ (if t = g.away_team then [g.home_team] else []) }

/-- `get_team_records` (compute_advanced_stats.py lines 29-67): fold the
completed games into per-team records.  Teams never seen keep
`emptyRecord`, matching the defaultdict. -/
def getTeamRecords (gs : List Game) : String → TeamRecord :=
  (gs.filter (·.is_completed)).foldl (fun recs g => recordGame g recs) (fun _ => emptyRecord)

/-- The set of team codes appearing in some completed game: the key set
of the `records` dictionary. -/
def teamsOf (gs : List Game) : Finset String :=
  ((gs.filter (·.is_completed)).foldr
    (fun g acc => g.home_team :: g.away_team :: acc) []).toFinset

/-- `games = wins + losses + ties` (compute_advanced_stats.py line 109). -/
def gamesPlayed (r : TeamRecord) : ℕ := r.wins + r.losses + r.ties

/-- `compute_win_pct` (compute_advanced_stats.py lines 70-75). -/
def computeWinPct (r : TeamRecord) : ℚ :=
  if gamesPlayed r = 0 then 1/2
  else ((r.wins : ℚ) + 0.5 * (r.ties : ℚ)) / (gamesPlayed r : ℚ)

/-- Point differential per game (compute_advanced_stats.py lines 107-113). -/
def ppdOf (recs : String → TeamRecord) (t : String) : ℚ :=
  if 0 < gamesPlayed (recs t)
  then ((recs t).pf - (recs t).pa : ℤ) / (gamesPlayed (recs t) : ℚ)
  else 0

/-- One synchronous SRS round (compute_advanced_stats.py lines 120-131):
every team reads the previous snapshot `s`. -/
def srsStep (recs : String → TeamRecord) (s : String → ℚ) : String → ℚ :=
  fun t =>
    if (recs t).opponents = [] then ppdOf recs t
    else ppdOf recs t
      + ((recs t).opponents.map s).sum / ((recs t).opponents.length : ℚ)

/-- `n` SRS rounds starting from the PPD initialization
(compute_advanced_stats.py lines 115-131). -/
def computeSrsAux (recs : String → TeamRecord) : ℕ → String → ℚ
  | 0 => fun t => ppdOf recs t
  | n + 1 => srsStep recs (computeSrsAux recs n)

/-- `compute_srs` (compute_advanced_stats.py lines 95-133), at its only
call site the `iterations` parameter keeps its default of 20. -/
def computeSrs (recs : String → TeamRecord) : String → ℚ :=
  computeSrsAux recs 20

/-- A round-robin game set: no team plays itself and every pair of
distinct participating teams meets in exactly one completed game. -/
def isRoundRobin (gs : List Game) : Prop :=
  (∀ g ∈ gs.filter (·.is_completed), g.home_team ≠ g.away_team) ∧
  ∀ t1 ∈ teamsOf gs, ∀ t2 ∈ teamsOf gs, t1 ≠ t2 →
    ((gs.filter (·.is_completed)).countP
      (fun g => (g.home_team = t1 ∧ g.away_team = t2) ∨
        (g.home_team = t2 ∧ g.away_team = t1) : Game → Bool)) = 1

instance (gs : List Game) : Decidable (isRoundRobin gs) := by
  unfold isRoundRobin
  infer_instance

/-- The odds-building loop of `main` (build_odds.py lines 179-186 and
218): every target game yields a matchup entry via
`calculate_matchup_odds(team_stats.get(home), team_stats.get(away))`;
no game is skipped, whether or not its teams carry stats. -/
noncomputable def buildMatchups (gs : List Game) (stats : String → Option TeamStatsIn) :
    List MatchupOdds :=
  gs.map (fun g => calculateMatchupOdds (stats g.home_team) (stats g.away_team))

/-! ### compute_team_stats.py : the win_pct slice

Only the portion of `compute_team_stats` feeding its `win_pct` field
(lines 112-230) is embedded: the completed-game filter, the win / loss /
tie tally of the loop at lines 143-203 (expressed as counts over the
same filtered list), and the `win_pct` entry itself. -/

/-- `team_games` (compute_team_stats.py lines 113-116). -/
def teamGames (gs : List Game) (team_code : String) : List Game :=
  gs.filter (fun g =>
    g.is_completed ∧ (g.home_team = team_code ∨ g.away_team = team_code) : Game → Bool)

/-- Points scored by `team_code` in game `g`
(compute_team_stats.py lines 146-156). -/
def scoredIn (g : Game) (team_code : String) : ℤ :=
  if g.home_team = team_code then g.home_score else g.away_score

/-- Points allowed to `team_code` in game `g`. -/
def allowedIn (g : Game) (team_code : String) : ℤ :=
  if g.home_team = team_code then g.away_score else g.home_score

/-- The `wins` tally of the loop at compute_team_stats.py lines 189-203. -/
def tsWins (gs : List Game) (team_code : String) : ℕ :=
  (teamGames gs team_code).countP
    (fun g => allowedIn g team_code < scoredIn g team_code : Game → Bool)

/-- The `losses` tally of the same loop. -/
def tsLosses (gs : List Game) (team_code : String) : ℕ :=
  (teamGames gs team_code).countP
    (fun g => scoredIn g team_code < allowedIn g team_code : Game → Bool)

/-- The `ties` tally of the same loop. -/
def tsTies (gs : List Game) (team_code : String) : ℕ :=
  (teamGames gs team_code).countP
    (fun g => scoredIn g team_code = allowedIn g team_code : Game → Bool)

/-- The `win_pct` field of `compute_team_stats`
(compute_team_stats.py line 230):
`round(wins / len(team_games), 3) if team_games else 0`. -/
def tsWinPct (gs : List Game) (team_code : String) : ℚ :=
  if teamGames gs team_code = [] then 0
  else pyRoundAt ((tsWins gs team_code : ℚ) / ((teamGames gs team_code).length : ℚ)) 3

/-! ### compute_team_stats.py : consistency score -/

/-- The plain mean `sum(values) / len(values)` of a nonempty series. -/
def listAvg (values : List ℚ) : ℚ := values.sum / (values.length : ℚ)

/-- The population variance `sum((x - avg)**2) / len(values)`
(compute_team_stats.py lines 45-46). -/
def listVariance (values : List ℚ) : ℚ :=
  (values.map (fun x => (x - listAvg values) ^ 2)).sum / (values.length : ℚ)

/-- `compute_std` (compute_team_stats.py lines 41-47): 0 for fewer than
two values, otherwise the square root of the population variance rounded
to 2 decimals. -/
noncomputable def computeStd (values : List ℚ) : ℚ :=
  if values.length < 2 then 0
  else (pyRound (Real.sqrt ((listVariance values : ℝ)) * 100) : ℚ) / 100

/-- `compute_consistency` (compute_team_stats.py lines 93-107). -/
noncomputable def computeConsistency (values : List ℚ) : ℚ :=
  if values.length < 2 then 100
  else if listAvg values = 0 then 0
  else pyRoundAt (max 0 (min 100 (100 * (1 - computeStd values / listAvg values)))) 1

/-- Modelled from the spec: the consistency formula exactly as the spec
words it, `100 * (1 - std/mean)` clamped to `[0, 100]` with `std` the
unrounded population standard deviation, for comparison with
`computeConsistency`. -/
noncomputable def specConsistency (values : List ℚ) : ℝ :=
  max 0 (min 100 (100 * (1 - Real.sqrt ((listVariance values : ℝ)) / (listAvg values : ℝ))))

/-! ### backtest_model.py : value bets and ROI

`analyze_predictions` walks the prediction list, keeping only entries
matched to a completed game; each surviving entry is modelled by a
`PredGame` carrying the prediction fields it reads (all of which the
odds builder always emits, so the `dict.get` defaults never fire) and
the actual scores of the matched game. -/

structure PredGame where
  home_win_prob : ℚ
  home_moneyline : ℤ
  away_moneyline : ℤ
  home_score : ℤ
  away_score : ℤ
deriving DecidableEq

/-- Implied probability of the home moneyline
(backtest_model.py lines 125-129). -/
def impliedProb (ml : ℤ) : ℚ :=
  if ml < 0 then (|ml| : ℚ) / ((|ml| : ℚ) + 100)
  else 100 / ((ml : ℚ) + 100)

/-- `edge = home_win_prob - implied_prob` (backtest_model.py line 131),
in exact rational arithmetic.  The program evaluates the same expression
in binary64 doubles, which disagrees with the exact value at
representation boundaries; the boundary instance the spec cites is
settled against the exact binary64 values below. -/
def edgeOf (home_win_prob : ℚ) (ml : ℤ) : ℚ :=
  home_win_prob - impliedProb ml

/-- The value-bet flag `abs(edge) > 0.05` (backtest_model.py line 133),
in exact rational arithmetic; the binary64 evaluation of the boundary
scenario is treated separately via `floatEdge65` and `float005`. -/
def isValueBet (home_win_prob : ℚ) (ml : ℤ) : Prop :=
  0.05 < |edgeOf home_win_prob ml|

/-! Binary64 doubles are exact rationals `m / 2 ^ k`, so the values the
program manipulates at the boundary scenario of the value-bet claim
(home_win_prob 0.65, home moneyline -150) can be stated exactly.  Each
constant below is the correctly rounded double of its decimal, which
the C7 counterexample certifies by a half-ulp bound on its binade. -/

/-- The binary64 double nearest 0.65: the value the program holds for a
stored `home_win_prob` of 0.65 (binade `[1/2, 1)`, ulp `2 ^ -53`). -/
def float065 : ℚ := 5854679515581645 / 9007199254740992

/-- The binary64 double nearest 0.6: the value
`abs(-150) / (abs(-150) + 100)` evaluates to in the program — 150 and
250 are exact doubles and the division is correctly rounded (binade
`[1/2, 1)`, ulp `2 ^ -53`). -/
def float06 : ℚ := 5404319552844595 / 9007199254740992

/-- The binary64 double nearest 0.05: the threshold of the
`abs(edge) > 0.05` comparison in the program (binade `[1/32, 1/16)`,
ulp `2 ^ -57`). -/
def float005 : ℚ := 3602879701896397 / 72057594037927936

/-- The edge the program computes at the boundary scenario: both
operands lie on the same binade, so their difference
`450359962737050 / 2 ^ 53` is itself exactly representable and the
float subtraction introduces no rounding of its own. -/
def floatEdge65 : ℚ := float065 - float06

/-- `bet_on_home = edge > 0` (backtest_model.py line 138). -/
def betOnHome (home_win_prob : ℚ) (ml : ℤ) : Prop :=
  0 < edgeOf home_win_prob ml

/-- The value-bet win test (backtest_model.py lines 139-140):
`(bet_on_home and home_won) or (not bet_on_home and not home_won and
home_score != away_score)`, with `home_won = home_score > away_score`. -/
def valueBetWon (home_win_prob : ℚ) (ml : ℤ) (home_score away_score : ℤ) : Prop :=
  (betOnHome home_win_prob ml ∧ away_score < home_score)
    ∨ (¬ betOnHome home_win_prob ml ∧ ¬ away_score < home_score
        ∧ home_score ≠ away_score)

/-- American-odds payout of a winning flat-100 bet at price `ml`
(backtest_model.py lines 160-163 and 169-172). -/
def mlPayout (ml : ℤ) : ℚ :=
  if ml < 0 then 100 * (100 / (|ml| : ℚ)) else (ml : ℚ)

/-- Moneyline profit of one analyzed game in the flat-100 ROI
simulation (backtest_model.py lines 155-174): 0 on a tied game, else
the payout of the bet on the side the model favours
(`predicted_home_win = home_win_prob > 0.5`) or a loss of 100. -/
def mlProfit (r : PredGame) : ℚ :=
  if r.home_score = r.away_score then 0
  else if 1/2 < r.home_win_prob then
    (if r.away_score < r.home_score then mlPayout r.home_moneyline else -100)
  else
    (if ¬ r.away_score < r.home_score then mlPayout r.away_moneyline else -100)

/-- `results["roi"]["units_wagered"]` (backtest_model.py line 153):
incremented once per analyzed game, before any tie check. -/
def unitsWagered (rs : List PredGame) : ℕ :=
  rs.foldl (fun n _ => n + 1) 0

/-- `results["roi"]["flat_ml"]` accumulated over the analyzed games. -/
def flatML (rs : List PredGame) : ℚ :=
  rs.foldl (fun acc r => acc + mlProfit r) 0

/-- `moneyline_roi` of `compute_summary` (backtest_model.py line 248):
`round(flat_ml / (units_wagered * 100) * 100, 1)` when any unit was
wagered, else 0. -/
def moneylineRoiPct (rs : List PredGame) : ℚ :=
  if 0 < unitsWagered rs
  then pyRoundAt (flatML rs / ((unitsWagered rs : ℚ) * 100) * 100) 1
  else 0

/-! ### Theorems -/

/-- C5: for every matchup the fair home and away win probabilities of
the odds model sum to exactly 1 before vig (the model additionally keeps
them strictly inside `(0, 1)`), and the vig-adjusted probability
`min(fair_prob * (1 + 0.0476), 0.99)` used for each moneyline never
exceeds 0.99. -/
theorem fair_probs_sum_one (home_stats away_stats : Option TeamStatsIn) (p : ℝ) :
    homeWinProb home_stats away_stats + awayWinProb home_stats away_stats = 1
    ∧ 0 < homeWinProb home_stats away_stats
    ∧ homeWinProb home_stats away_stats < 1
    ∧ vigAdjustedProb p ≤ 0.99 := by
  have hexp : 0 < Real.exp (-(LOGISTIC_K : ℝ) * (expectedDiff home_stats away_stats : ℝ)) :=
    Real.exp_pos _
  refine ⟨by unfold awayWinProb; ring, ?_, ?_, min_le_right _ _⟩
  · exact div_pos one_pos (by linarith)
  · unfold homeWinProb
    rw [div_lt_one (by linarith)]
    linarith

/-- C6: the spread `-round(expected_diff * 2)/2` and the over/under
total emitted by `calculate_matchup_odds` are exact multiples of 0.5;
consequently for a completed game with integer scores the
`spread_result` classification is `push` exactly when
`|actual_diff + spread| < 0.5`, and in particular `actual_diff = 3`
against a spread of -3.0 is a push. -/
theorem spread_half_grid_push (home_stats away_stats : Option TeamStatsIn) (d : ℤ) :
    (∃ k : ℤ, spreadOf home_stats away_stats = (k : ℚ) / 2)
    ∧ (∃ k : ℤ, overUnderOf home_stats away_stats = (k : ℚ) / 2)
    ∧ (spreadResult d (spreadOf home_stats away_stats) = .push
        ↔ |(d : ℚ) + spreadOf home_stats away_stats| < 1/2)
    ∧ spreadResult 3 (-3 : ℚ) = .push := by
  refine ⟨⟨-(pyRound (expectedDiff home_stats away_stats * 2)), ?_⟩,
    ⟨pyRound ((ppgScoredOr21 home_stats + ppgAllowedOr21 away_stats
      + (ppgScoredOr21 away_stats + ppgAllowedOr21 home_stats)) / 2 * 2), rfl⟩, ?_, ?_⟩
  · unfold spreadOf
    push_cast
    ring
  · set s := spreadOf home_stats away_stats with hs
    obtain ⟨k, hk⟩ : ∃ k : ℤ, s = (k : ℚ) / 2 := by
      refine ⟨-(pyRound (expectedDiff home_stats away_stats * 2)), ?_⟩
      rw [hs]; unfold spreadOf; push_cast; ring
    constructor
    · intro hpush
      unfold spreadResult at hpush
      by_cases h0 : (d : ℚ) + s = 0
      · rw [h0]
        norm_num
      · rw [if_neg h0] at hpush
        split_ifs at hpush
    · intro habs
      have h2 : |(2 * d + k : ℚ)| < 1 := by
        have : (2 * d + k : ℚ) = 2 * ((d : ℚ) + s) := by rw [hk]; ring
        rw [this, abs_mul]
        rw [abs_of_pos (by norm_num : (0:ℚ) < 2)]
        linarith [abs_nonneg ((d : ℚ) + s)]
      have h3 : |2 * d + k| < 1 := by exact_mod_cast h2
      have h4 : 2 * d + k = 0 := by
        rcases abs_lt.mp h3 with ⟨hl, hr⟩
        omega
      have h5 : (d : ℚ) + s = 0 := by
        rw [hk]
        have : ((2 * d + k : ℤ) : ℚ) = 0 := by exact_mod_cast h4
        push_cast at this
        linarith
      unfold spreadResult
      rw [if_pos h5]
  · unfold spreadResult
    norm_num

/-- C7 counterexample: at the boundary input the claim itself cites
(home_win_prob 0.65, moneyline -150) the exact edge is exactly 1/20,
which the strict threshold would not flag; but the program evaluates in
binary64: the certified doubles nearest 0.65, 0.6 and 0.05 give an edge
of exactly `450359962737050 / 2 ^ 53 = 0.0500000000000000444...`,
strictly above the double nearest 0.05, so `abs(edge) > 0.05` is True
and the program DOES record this input as a value bet — refuting the
claim at its own example.  The half-ulp bounds certify each constant as
the correctly rounded double on its binade. -/
theorem value_bet_boundary_cex :
    |edgeOf (65/100 : ℚ) (-150)| = 1/20
    ∧ ¬ isValueBet (65/100 : ℚ) (-150)
    ∧ |float065 - 13/20| ≤ 1/2 ^ 54
    ∧ |float06 - 3/5| ≤ 1/2 ^ 54
    ∧ |float005 - 1/20| ≤ 1/2 ^ 58
    ∧ floatEdge65 = 450359962737050 / 9007199254740992
    ∧ float005 < |floatEdge65| := by
  have h1 : edgeOf (65/100 : ℚ) (-150) = 1/20 := by
    unfold edgeOf impliedProb
    rw [if_pos (by norm_num : (-150 : ℤ) < 0)]
    norm_num
  have habs : |edgeOf (65/100 : ℚ) (-150)| = 1/20 := by
    rw [h1, abs_of_nonneg (by norm_num : (0:ℚ) ≤ 1/20)]
  have hfe : floatEdge65 = 450359962737050 / 9007199254740992 := by
    unfold floatEdge65 float065 float06
    norm_num
  refine ⟨habs, ?_, ?_, ?_, ?_, hfe, ?_⟩
  · unfold isValueBet
    rw [habs]
    norm_num
  · rw [abs_le]
    unfold float065
    constructor <;> norm_num
  · rw [abs_le]
    unfold float06
    constructor <;> norm_num
  · rw [abs_le]
    unfold float005
    constructor <;> norm_num
  · rw [hfe, abs_of_nonneg (by norm_num : (0:ℚ) ≤ 450359962737050 / 9007199254740992)]
    unfold float005
    norm_num

/-- C7 (amended): in the backtest the edge is the model home
probability minus the inverse-American implied probability of the home
moneyline, the value-bet flag requires the edge magnitude strictly
above the 0.05 threshold in the arithmetic the program uses, the bet
side is home exactly when the edge is positive, and a tied game is
never a value-bet win for either side.  The cited boundary scenario
(0.65 against -150) has edge exactly 0.05 only in exact arithmetic;
the binary64 edge the program computes strictly exceeds the double
nearest 0.05, so the program flags that input as a value bet. -/
theorem value_bet_spec (p : ℚ) (ml : ℤ) (s : ℤ) :
    edgeOf p ml = p - (if ml < 0 then (|ml| : ℚ) / ((|ml| : ℚ) + 100)
      else 100 / ((ml : ℚ) + 100))
    ∧ (isValueBet p ml ↔ 0.05 < |edgeOf p ml|)
    ∧ (betOnHome p ml ↔ 0 < edgeOf p ml)
    ∧ ¬ valueBetWon p ml s s
    ∧ float005 < |floatEdge65| := by
  refine ⟨rfl, Iff.rfl, Iff.rfl, ?_, ?_⟩
  · unfold valueBetWon
    simp
  · have hfe : floatEdge65 = 450359962737050 / 9007199254740992 := by
      unfold floatEdge65 float065 float06
      norm_num
    rw [hfe, abs_of_nonneg (by norm_num : (0:ℚ) ≤ 450359962737050 / 9007199254740992)]
    unfold float005
    norm_num

/-- C8: `prob_to_american_odds` maps every probability at most 0 to the
sentinel 10000 and every probability at least 1 to -10000; strictly
between 0 and 1 it returns `round(-100*p/(1-p))` for `p ≥ 0.5` and
`round(100*(1-p)/p)` for `p < 0.5`; in particular it sends 0.5 to
-100. -/
theorem probToAmericanOdds_spec (p : ℚ) :
    (p ≤ 0 → probToAmericanOdds p = 10000)
    ∧ (1 ≤ p → probToAmericanOdds p = -10000)
    ∧ (0 < p → p < 1 → 1/2 ≤ p → probToAmericanOdds p = pyRound (-100 * p / (1 - p)))
    ∧ (0 < p → p < 1/2 → probToAmericanOdds p = pyRound (100 * (1 - p) / p))
    ∧ probToAmericanOdds (1/2 : ℚ) = -100 := by
  refine ⟨?_, ?_, ?_, ?_, ?_⟩
  · intro h
    unfold probToAmericanOdds
    rw [if_pos h]
  · intro h
    unfold probToAmericanOdds
    rw [if_neg (by linarith), if_pos h]
  · intro h0 h1 hhalf
    unfold probToAmericanOdds
    rw [if_neg (not_le.mpr h0), if_neg (not_le.mpr h1), if_pos hhalf]
  · intro h0 hhalf
    unfold probToAmericanOdds
    rw [if_neg (not_le.mpr h0), if_neg (by linarith), if_neg (not_le.mpr hhalf)]
  · unfold probToAmericanOdds
    rw [if_neg (by norm_num), if_neg (by norm_num), if_pos (by norm_num : (1:ℚ)/2 ≤ 1/2)]
    have harg : (-100 * (1/2 : ℚ) / (1 - 1/2)) = -100 := by norm_num
    rw [harg]
    unfold pyRound
    rw [if_pos]
    · norm_num
    · norm_num

/-- Witness for C7 (amended) at a concrete tied game. -/
theorem value_bet_spec_witness :
    ¬ valueBetWon (6/10 : ℚ) (-110) 20 20 :=
  (value_bet_spec (6/10) (-110) 20).2.2.2.1

/-- C10: a team missing from the stats dictionary never makes the odds
builder skip or fail a game: the loop emits one matchup record per game,
the missing side gets power rating 0.0, and its ppg scored/allowed enter
the total and team-total computations as the league-average 21.0 — so a
missing side produces exactly the record of an average
`⟨21, 21, 21, 21⟩` team (whose power rating is also 0). -/
theorem missing_stats_full_record (home_stats away_stats : Option TeamStatsIn)
    (gs : List Game) (stats : String → Option TeamStatsIn) :
    calculatePowerRating none = 0
    ∧ (buildMatchups gs stats).length = gs.length
    ∧ calculateMatchupOdds none away_stats
        = calculateMatchupOdds (some ⟨21, 21, 21, 21⟩) away_stats
    ∧ calculateMatchupOdds home_stats none
        = calculateMatchupOdds home_stats (some ⟨21, 21, 21, 21⟩) := by
  have hsome : calculatePowerRating (some ⟨21, 21, 21, 21⟩) = 0 := by
    norm_num [calculatePowerRating]
  have hnone : calculatePowerRating (none : Option TeamStatsIn) = 0 := rfl
  refine ⟨rfl, List.length_map _ _, ?_, ?_⟩
  · simp only [calculateMatchupOdds, applyVig, vigAdjustedProb, expectedDiff, homeWinProb,
      awayWinProb, spreadOf, overUnderOf, homeTeamTotalOf, awayTeamTotalOf,
      ppgScoredOr21, ppgAllowedOr21, hsome, hnone]
  · simp only [calculateMatchupOdds, applyVig, vigAdjustedProb, expectedDiff, homeWinProb,
      awayWinProb, spreadOf, overUnderOf, homeTeamTotalOf, awayTeamTotalOf,
      ppgScoredOr21, ppgAllowedOr21, hsome, hnone]

/-- A team appearing in no game of the fold keeps its accumulator
entry untouched. -/
theorem recordGame_not_mem (g : Game) (recs : String → TeamRecord) (t : String)
    (h1 : t ≠ g.home_team) (h2 : t ≠ g.away_team) :
    recordGame g recs t = recs t := by
  unfold recordGame
  simp [h1, h2]

theorem foldl_records_not_mem (L : List Game) :
    ∀ (acc : String → TeamRecord) (t : String),
      (∀ g ∈ L, t ≠ g.home_team ∧ t ≠ g.away_team) →
      L.foldl (fun recs g => recordGame g recs) acc t = acc t := by
  induction L with
  | nil => intro acc t _; rfl
  | cons g L ih =>
    intro acc t h
    have hg := h g (by simp)
    have hrest : ∀ g2 ∈ L, t ≠ g2.home_team ∧ t ≠ g2.away_team :=
      fun g2 hg2 => h g2 (by simp [hg2])
    rw [List.foldl_cons, ih _ t hrest, recordGame_not_mem g acc t hg.1 hg.2]

/-- Membership in the flattened home/away team list. -/
theorem mem_teamList (L : List Game) (t : String) :
    t ∈ L.foldr (fun g acc => g.home_team :: g.away_team :: acc) []
      ↔ ∃ g ∈ L, t = g.home_team ∨ t = g.away_team := by
  induction L with
  | nil => simp
  | cons g L ih =>
    constructor
    · intro h
      rw [List.foldr_cons, List.mem_cons, List.mem_cons] at h
      rcases h with h | h | h
      · exact ⟨g, by simp, Or.inl h⟩
      · exact ⟨g, by simp, Or.inr h⟩
      · obtain ⟨g2, hg2, hs⟩ := ih.mp h
        exact ⟨g2, by simp [hg2], hs⟩
    · rintro ⟨g2, hg2, hs⟩
      rw [List.foldr_cons, List.mem_cons, List.mem_cons]
      rcases List.mem_cons.mp hg2 with rfl | htail
      · rcases hs with h | h
        · exact Or.inl h
        · exact Or.inr (Or.inl h)
      · exact Or.inr (Or.inr (ih.mpr ⟨g2, htail, hs⟩))

theorem mem_teamsOf (gs : List Game) (t : String) :
    t ∈ teamsOf gs ↔
      ∃ g ∈ gs.filter (·.is_completed), t = g.home_team ∨ t = g.away_team := by
  unfold teamsOf
  rw [List.mem_toFinset]
  exact mem_teamList _ t

theorem getTeamRecords_not_mem (gs : List Game) (t : String) (h : t ∉ teamsOf gs) :
    getTeamRecords gs t = emptyRecord := by
  unfold getTeamRecords
  apply foldl_records_not_mem
  intro g hg
  rw [mem_teamsOf] at h
  push_neg at h
  have := h g hg
  tauto

/-- Each processed game adds one to the games-played tally of each of
its two sides (twice for a degenerate self-game) and leaves everyone
else untouched. -/
theorem gamesPlayed_recordGame (g : Game) (recs : String → TeamRecord) (t : String) :
    gamesPlayed (recordGame g recs t) = gamesPlayed (recs t)
      + ((if t = g.home_team then 1 else 0) + (if t = g.away_team then 1 else 0)) := by
  unfold gamesPlayed recordGame
  rcases eq_or_ne t g.home_team with hh | hh <;> rcases eq_or_ne t g.away_team with ha | ha
  · subst hh
    simp only [ha, true_and, eq_self_iff_true, if_true]
    split_ifs <;> omega
  · subst hh
    simp [ha]
    split_ifs <;> omega
  · subst ha
    simp [hh]
    split_ifs <;> omega
  · simp [hh, ha]

theorem gamesPlayed_foldl_ge (L : List Game) :
    ∀ (acc : String → TeamRecord) (t : String),
      gamesPlayed (acc t) ≤ gamesPlayed (L.foldl (fun recs g => recordGame g recs) acc t) := by
  induction L with
  | nil => intro acc t; exact le_rfl
  | cons g L ih =>
    intro acc t
    calc gamesPlayed (acc t) ≤ gamesPlayed (recordGame g acc t) := by
          rw [gamesPlayed_recordGame]; omega
    _ ≤ _ := ih (recordGame g acc) t

theorem gamesPlayed_pos_of_mem (L : List Game) :
    ∀ (acc : String → TeamRecord) (t : String),
      (∃ g ∈ L, t = g.home_team ∨ t = g.away_team) →
      1 ≤ gamesPlayed (L.foldl (fun recs g => recordGame g recs) acc t) := by
  induction L with
  | nil => intro acc t h; simp at h
  | cons g L ih =>
    intro acc t h
    rw [List.foldl_cons]
    rcases h with ⟨g2, hg2, hside⟩
    rcases List.mem_cons.mp hg2 with rfl | htail
    · have h1 : 1 ≤ gamesPlayed (recordGame g2 acc t) := by
        rw [gamesPlayed_recordGame]
        rcases hside with h | h <;> simp [h] <;> omega
      exact le_trans h1 (gamesPlayed_foldl_ge L _ t)
    · exact ih _ t ⟨g2, htail, hside⟩

/-- Each processed game moves `home_score - away_score` of point
differential to its home side and the negation to its away side. -/
theorem pfpa_recordGame (g : Game) (recs : String → TeamRecord) (t : String) :
    (recordGame g recs t).pf - (recordGame g recs t).pa
      = ((recs t).pf - (recs t).pa)
        + ((if t = g.home_team then g.home_score - g.away_score else 0)
          + (if t = g.away_team then g.away_score - g.home_score else 0)) := by
  unfold recordGame
  simp only
  split_ifs <;> ring

/-- A game between two members of `S` does not change the total point
differential over `S`. -/
theorem sum_pfpa_recordGame (S : Finset String) (g : Game) (recs : String → TeamRecord)
    (hhome : g.home_team ∈ S) (haway : g.away_team ∈ S) :
    ∑ t ∈ S, ((recordGame g recs t).pf - (recordGame g recs t).pa)
      = ∑ t ∈ S, ((recs t).pf - (recs t).pa) := by
  rw [Finset.sum_congr rfl (fun t _ => pfpa_recordGame g recs t)]
  rw [Finset.sum_add_distrib, Finset.sum_add_distrib]
  rw [Finset.sum_ite_eq' S g.home_team (fun _ => g.home_score - g.away_score)]
  rw [Finset.sum_ite_eq' S g.away_team (fun _ => g.away_score - g.home_score)]
  rw [if_pos hhome, if_pos haway]
  ring

theorem sum_pfpa_foldl (L : List Game) :
    ∀ (acc : String → TeamRecord) (S : Finset String),
      (∀ g ∈ L, g.home_team ∈ S ∧ g.away_team ∈ S) →
      ∑ t ∈ S, (((L.foldl (fun recs g => recordGame g recs) acc) t).pf
          - ((L.foldl (fun recs g => recordGame g recs) acc) t).pa)
        = ∑ t ∈ S, ((acc t).pf - (acc t).pa) := by
  induction L with
  | nil => intro acc S _; rfl
  | cons g L ih =>
    intro acc S h
    have hg := h g (by simp)
    rw [List.foldl_cons, ih _ S (fun g2 hg2 => h g2 (by simp [hg2]))]
    exact sum_pfpa_recordGame S g acc hg.1 hg.2

/-- Closedness: over the full key set of the aggregation the point
differentials cancel game by game, so they sum to zero. -/
theorem sum_pfpa_records (gs : List Game) :
    ∑ t ∈ teamsOf gs, ((getTeamRecords gs t).pf - (getTeamRecords gs t).pa) = 0 := by
  unfold getTeamRecords
  rw [sum_pfpa_foldl _ _ (teamsOf gs) ?_]
  · simp [emptyRecord]
  · intro g hg
    constructor
    · rw [mem_teamsOf]
      exact ⟨g, hg, Or.inl rfl⟩
    · rw [mem_teamsOf]
      exact ⟨g, hg, Or.inr rfl⟩

/-- C4: `compute_srs` initializes every SRS value to the PPD of the team,
performs synchronous rounds in which each team adds the previous
previous-round mean SRS over its opponent list (one occurrence per game) to
its own PPD, runs exactly 20 such rounds at its call site, and a team
with an empty opponent list has SRS = PPD after every round. -/
theorem compute_srs_spec (recs : String → TeamRecord) :
    (∀ t, computeSrsAux recs 0 t = ppdOf recs t)
    ∧ (∀ n t, computeSrsAux recs (n + 1) t =
        (if (recs t).opponents = [] then ppdOf recs t
         else ppdOf recs t
           + (((recs t).opponents.map (computeSrsAux recs n)).sum)
             / ((recs t).opponents.length : ℚ)))
    ∧ (∀ t, computeSrs recs t = computeSrsAux recs 20 t)
    ∧ (∀ t, (recs t).opponents = [] → ∀ n, computeSrsAux recs n t = ppdOf recs t) := by
  refine ⟨fun t => rfl, fun n t => rfl, fun t => rfl, ?_⟩
  intro t h n
  induction n with
  | zero => rfl
  | succ n ih =>
    show srsStep recs (computeSrsAux recs n) t = _
    unfold srsStep
    rw [if_pos h]

/-- C3: in a closed round-robin game set in which every participating
team has the same PPD, the common PPD is forced to 0 by closedness
(point differentials cancel within the set), and the SRS of every team after
the 20 iteration rounds equals `2 * PPD = 0`. -/
theorem srs_round_robin_uniform (gs : List Game) (c : ℚ)
    (_hrr : isRoundRobin gs)
    (hppd : ∀ t ∈ teamsOf gs, ppdOf (getTeamRecords gs) t = c) :
    ∀ t ∈ teamsOf gs, computeSrs (getTeamRecords gs) t = 2 * c := by
  intro t0 ht0
  have hc : c = 0 := by
    by_cases hall : ∀ t ∈ teamsOf gs, 0 < gamesPlayed (getTeamRecords gs t)
    · have hkey : ∀ t ∈ teamsOf gs,
          (((getTeamRecords gs t).pf - (getTeamRecords gs t).pa : ℤ) : ℚ)
            = c * (gamesPlayed (getTeamRecords gs t) : ℚ) := by
        intro t ht
        have hp := hppd t ht
        unfold ppdOf at hp
        rw [if_pos (hall t ht)] at hp
        have hne : (gamesPlayed (getTeamRecords gs t) : ℚ) ≠ 0 := by
          have := hall t ht
          positivity
        rw [div_eq_iff hne] at hp
        rw [hp]
      have hzero : (0 : ℚ) = c * ∑ t ∈ teamsOf gs, (gamesPlayed (getTeamRecords gs t) : ℚ) := by
        have h1 : ((∑ t ∈ teamsOf gs,
            ((getTeamRecords gs t).pf - (getTeamRecords gs t).pa) : ℤ) : ℚ) = 0 := by
          rw [sum_pfpa_records gs]
          norm_num
        rw [← h1]
        push_cast
        rw [Finset.mul_sum]
        exact Finset.sum_congr rfl (fun t ht => by
          have := hkey t ht
          push_cast at this
          exact this)
      have hpos : 0 < ∑ t ∈ teamsOf gs, (gamesPlayed (getTeamRecords gs t) : ℚ) := by
        have h1 : (1 : ℚ) ≤ (gamesPlayed (getTeamRecords gs t0) : ℚ) := by
          exact_mod_cast hall t0 ht0
        have h2 : (gamesPlayed (getTeamRecords gs t0) : ℚ)
            ≤ ∑ t ∈ teamsOf gs, (gamesPlayed (getTeamRecords gs t) : ℚ) :=
          @Finset.single_le_sum String ℚ _
            (fun t => (gamesPlayed (getTeamRecords gs t) : ℚ)) (teamsOf gs)
            (fun i _ => by positivity) t0 ht0
        linarith
      rcases mul_eq_zero.mp hzero.symm with h | h
      · exact h
      · exact absurd h (ne_of_gt hpos)
    · push_neg at hall
      obtain ⟨t, ht, hg⟩ := hall
      have hp := hppd t ht
      unfold ppdOf at hp
      rw [if_neg (by omega : ¬ 0 < gamesPlayed (getTeamRecords gs t))] at hp
      exact hp.symm
  have hppd0 : ∀ t, ppdOf (getTeamRecords gs) t = 0 := by
    intro t
    by_cases h : t ∈ teamsOf gs
    · rw [hppd t h, hc]
    · unfold ppdOf
      rw [getTeamRecords_not_mem gs t h]
      simp [gamesPlayed, emptyRecord]
  have hsrs : ∀ (n : ℕ) (t : String), computeSrsAux (getTeamRecords gs) n t = 0 := by
    intro n
    induction n with
    | zero => intro t; exact hppd0 t
    | succ n ih =>
      intro t
      show srsStep (getTeamRecords gs) (computeSrsAux (getTeamRecords gs) n) t = 0
      unfold srsStep
      split_ifs with h
      · exact hppd0 t
      · rw [hppd0 t]
        have hmap : (((getTeamRecords gs t).opponents).map
            (computeSrsAux (getTeamRecords gs) n)).sum = 0 := by
          apply List.sum_eq_zero
          intro x hx
          obtain ⟨o, _, rfl⟩ := List.mem_map.mp hx
          exact ih o
        rw [hmap]
        simp
  show computeSrsAux (getTeamRecords gs) 20 t0 = 2 * c
  rw [hsrs 20 t0, hc]
  ring

/-- A closed three-team round-robin in which every game ends 21-17, so
every team is 1-1 with zero point differential. -/
def exRR : List Game :=
  [⟨"A", "B", 21, 17, true⟩, ⟨"B", "C", 21, 17, true⟩, ⟨"C", "A", 21, 17, true⟩]

/-- Witness for C3: the concrete round-robin `exRR` satisfies both
hypotheses with common PPD 0 and the theorem yields its conclusion. -/
theorem srs_round_robin_uniform_witness :
    isRoundRobin exRR
    ∧ (∀ t ∈ teamsOf exRR, ppdOf (getTeamRecords exRR) t = 0)
    ∧ ∀ t ∈ teamsOf exRR, computeSrs (getTeamRecords exRR) t = 2 * 0 := by
  have hrr : isRoundRobin exRR := by decide
  have hT : teamsOf exRR = {"A", "B", "C"} := by decide
  have hppd : ∀ t ∈ teamsOf exRR, ppdOf (getTeamRecords exRR) t = 0 := by
    intro t ht
    rw [hT] at ht
    have hA : getTeamRecords exRR "A" = ⟨1, 1, 0, 38, 38, ["B", "C"]⟩ := by decide
    have hB : getTeamRecords exRR "B" = ⟨1, 1, 0, 38, 38, ["A", "C"]⟩ := by decide
    have hC : getTeamRecords exRR "C" = ⟨1, 1, 0, 38, 38, ["B", "A"]⟩ := by decide
    rcases Finset.mem_insert.mp ht with rfl | ht2
    · unfold ppdOf; rw [hA]; norm_num [gamesPlayed]
    · rcases Finset.mem_insert.mp ht2 with rfl | ht3
      · unfold ppdOf; rw [hB]; norm_num [gamesPlayed]
      · rw [Finset.mem_singleton.mp ht3]
        unfold ppdOf; rw [hC]; norm_num [gamesPlayed]
  exact ⟨hrr, hppd, srs_round_robin_uniform exRR 0 hrr hppd⟩

/-- Witness for C4: a team outside every game has an empty opponent
list, and its SRS stays at its PPD after any number of rounds. -/
theorem compute_srs_spec_witness :
    (getTeamRecords exRR "Z").opponents = []
    ∧ computeSrsAux (getTeamRecords exRR) 7 "Z" = ppdOf (getTeamRecords exRR) "Z" := by
  have h : (getTeamRecords exRR "Z").opponents = [] := by decide
  exact ⟨h, (compute_srs_spec (getTeamRecords exRR)).2.2.2 "Z" h 7⟩

/-- A season in which team A records exactly one win, one tie and one
loss. -/
def exGamesA : List Game :=
  [⟨"A", "B", 20, 10, true⟩, ⟨"C", "A", 14, 14, true⟩, ⟨"A", "D", 7, 21, true⟩]

/-- C1 counterexample: with one win, one tie and one loss the `win_pct`
field of `compute_team_stats` is `round(1/3, 3) = 0.333`, not the 0.5
the claim asserts for every exposed win_pct — its formula counts a tie
as a loss. -/
theorem team_stats_win_pct_cex :
    tsWins exGamesA "A" = 1 ∧ tsLosses exGamesA "A" = 1 ∧ tsTies exGamesA "A" = 1
    ∧ tsWinPct exGamesA "A" = 333/1000
    ∧ tsWinPct exGamesA "A" ≠ 1/2 := by
  have hg : teamGames exGamesA "A" = exGamesA := by decide
  have hw : tsWins exGamesA "A" = 1 := by decide
  have hpct : tsWinPct exGamesA "A" = 333/1000 := by
    unfold tsWinPct
    rw [hg, hw, if_neg (by decide : ¬ exGamesA = [])]
    have hlen : (exGamesA.length : ℚ) = 3 := by decide
    rw [hlen]
    unfold pyRoundAt pyRound
    norm_num
  exact ⟨hw, by decide, by decide, hpct, by rw [hpct]; norm_num⟩

/-- C1 (amended): `compute_win_pct` of the record aggregator counts a
tie as half a win, returns 0.5 on an empty record, and always lies in
`[0, 1]`; there a one-win one-tie one-loss record scores exactly 0.5.
The `win_pct` field of `compute_team_stats` also always lies in
`[0, 1]`, but it is `round(wins / games, 3)`, counting ties as losses. -/
theorem win_pct_spec (r : TeamRecord) (gs : List Game) (code : String)
    (pf pa : ℤ) (opps : List String) :
    (0 ≤ computeWinPct r ∧ computeWinPct r ≤ 1)
    ∧ computeWinPct ⟨1, 1, 1, pf, pa, opps⟩ = 1/2
    ∧ computeWinPct ⟨0, 0, 0, pf, pa, opps⟩ = 1/2
    ∧ (0 ≤ tsWinPct gs code ∧ tsWinPct gs code ≤ 1) := by
  refine ⟨?_, ?_, ?_, ?_⟩
  · unfold computeWinPct
    split_ifs with h
    · norm_num
    · have htot : 0 < (gamesPlayed r : ℚ) := by
        have := Nat.pos_of_ne_zero h
        exact_mod_cast this
      constructor
      · apply div_nonneg _ (le_of_lt htot)
        positivity
      · rw [div_le_one htot]
        unfold gamesPlayed
        push_cast
        have h2 : (0:ℚ) ≤ (r.ties : ℚ) := by positivity
        have h3 : (0:ℚ) ≤ (r.losses : ℚ) := by positivity
        linarith
  · norm_num [computeWinPct, gamesPlayed]
  · norm_num [computeWinPct, gamesPlayed]
  · unfold tsWinPct
    split_ifs with h
    · norm_num
    · have hlen : 0 < ((teamGames gs code).length : ℚ) := by
        have := List.length_pos.mpr h
        exact_mod_cast this
      have hq0 : 0 ≤ (tsWins gs code : ℚ) / ((teamGames gs code).length : ℚ) := by
        apply div_nonneg _ (le_of_lt hlen)
        positivity
      have hq1 : (tsWins gs code : ℚ) / ((teamGames gs code).length : ℚ) ≤ 1 := by
        rw [div_le_one hlen]
        have hw : tsWins gs code ≤ (teamGames gs code).length := List.countP_le_length _
        exact_mod_cast hw
      unfold pyRoundAt
      constructor
      · apply div_nonneg _ (by positivity)
        have := pyRound_nonneg
          ((tsWins gs code : ℚ) / ((teamGames gs code).length : ℚ) * 10 ^ 3) (by positivity)
        exact_mod_cast this
      · rw [div_le_one (by positivity : (0:ℚ) < 10 ^ 3)]
        have harg : (tsWins gs code : ℚ) / ((teamGames gs code).length : ℚ) * 10 ^ 3
            ≤ ((1000 : ℤ) : ℚ) := by
          push_cast
          nlinarith
        have := pyRound_le _ 1000 harg
        have hcast : ((pyRound ((tsWins gs code : ℚ) / ((teamGames gs code).length : ℚ)
            * 10 ^ 3) : ℤ) : ℚ) ≤ ((1000 : ℤ) : ℚ) := by exact_mod_cast this
        push_cast at hcast ⊢
        linarith

/-- The single analyzed prediction of a tied game. -/
def tiedPred : PredGame := ⟨6/10, -110, -110, 20, 20⟩

/-- C2 counterexample: the ROI simulation wagers a unit on a tied game
too — `units_wagered` is incremented before the tie check — so for a
single tied game it is 1 while the number of decided games is 0. -/
theorem roi_units_cex :
    unitsWagered [tiedPred] = 1
    ∧ (List.filter (fun r => r.home_score ≠ r.away_score : PredGame → Bool)
        [tiedPred]).length = 0
    ∧ unitsWagered [tiedPred]
      ≠ (List.filter (fun r => r.home_score ≠ r.away_score : PredGame → Bool)
        [tiedPred]).length := by
  refine ⟨rfl, rfl, by decide⟩

/-- `units_wagered` is one per analyzed game. -/
theorem unitsWagered_eq_length (rs : List PredGame) : unitsWagered rs = rs.length := by
  have key : ∀ (l : List PredGame) (n : ℕ), l.foldl (fun m _ => m + 1) n = n + l.length := by
    intro l
    induction l with
    | nil => simp
    | cons a l ih =>
      intro n
      simp [List.foldl, ih]
      omega
  simpa using key rs 0

/-- `flat_ml` is the sum of the per-game profits. -/
theorem flatML_eq_sum (rs : List PredGame) : flatML rs = (rs.map mlProfit).sum := by
  have key : ∀ (l : List PredGame) (acc : ℚ),
      l.foldl (fun a r => a + mlProfit r) acc = acc + (l.map mlProfit).sum := by
    intro l
    induction l with
    | nil => simp
    | cons a l ih =>
      intro acc
      simp [List.foldl, ih]
      ring
  simpa using key rs 0

/-- C2 (amended): the ROI simulation wagers one flat unit of 100 per
analyzed completed game — ties included, a tied game contributing zero
profit; on a decided game the bet is on the home side exactly when
`home_win_prob > 0.5`, a win adds the American-odds payout of that
posted line of that side (negative line: `100*(100/|line|)`, else the line
value), a loss subtracts 100; and the reported ROI% is
`round(profit / (units * 100) * 100, 1)`. -/
theorem roi_spec (rs : List PredGame) (r : PredGame) :
    unitsWagered rs = rs.length
    ∧ flatML rs = (rs.map mlProfit).sum
    ∧ (r.home_score = r.away_score → mlProfit r = 0)
    ∧ (r.home_score ≠ r.away_score →
        mlProfit r = if 1/2 < r.home_win_prob
          then (if r.away_score < r.home_score then mlPayout r.home_moneyline else -100)
          else (if ¬ r.away_score < r.home_score then mlPayout r.away_moneyline else -100))
    ∧ mlPayout r.home_moneyline = (if r.home_moneyline < 0
        then 100 * (100 / (|r.home_moneyline| : ℚ)) else (r.home_moneyline : ℚ))
    ∧ (rs ≠ [] →
        moneylineRoiPct rs = pyRoundAt (flatML rs / ((rs.length : ℚ) * 100) * 100) 1) := by
  refine ⟨unitsWagered_eq_length rs, flatML_eq_sum rs, ?_, ?_, rfl, ?_⟩
  · intro h
    unfold mlProfit
    rw [if_pos h]
  · intro h
    unfold mlProfit
    rw [if_neg h]
  · intro h
    unfold moneylineRoiPct
    rw [unitsWagered_eq_length rs]
    rw [if_pos (List.length_pos.mpr h)]

/-- Witness for C2 (amended) at a concrete tied game. -/
theorem roi_spec_witness :
    mlProfit tiedPred = 0
    ∧ moneylineRoiPct [tiedPred]
      = pyRoundAt (flatML [tiedPred] / (([tiedPred].length : ℚ) * 100) * 100) 1 :=
  ⟨(roi_spec [tiedPred] tiedPred).2.2.1 rfl,
   (roi_spec [tiedPred] tiedPred).2.2.2.2.2 (by simp)⟩

/-- Evaluation of the rounded population standard deviation on the
two-value series `[1, 2]`: the variance is 1/4, so the standard
deviation is exactly 1/2 and rounding leaves it unchanged. -/
theorem computeStd_one_two : computeStd [1, 2] = 1/2 := by
  have hvar : listVariance [1, 2] = 1/4 := by
    norm_num [listVariance, listAvg]
  have hsq : ((listVariance [1, 2] : ℚ) : ℝ) = (1/2 : ℝ) ^ 2 := by
    rw [hvar]; norm_num
  have hsqrt : Real.sqrt ((listVariance [1, 2] : ℚ) : ℝ) = 1/2 := by
    rw [hsq, Real.sqrt_sq (by norm_num : (0:ℝ) ≤ 1/2)]
  unfold computeStd
  rw [if_neg (by norm_num)]
  rw [hsqrt]
  have h50 : pyRound ((1/2 : ℝ) * 100) = 50 := by
    have harg : ((1:ℝ)/2) * 100 = ((50 : ℤ) : ℝ) := by norm_num
    unfold pyRound
    rw [harg, Int.floor_intCast]
    rw [if_pos (by norm_num)]
  rw [h50]
  norm_num

/-- C9 counterexample: on the series `[1, 2]` the code returns
`round(max(0, min(100, 100*(1 - round(std,2)/mean))), 1) = 66.7`,
while the claimed formula `clamp(100*(1 - std/mean))` equals
`200/3 = 66.66...`; the two differ because the code rounds the standard
deviation to 2 decimals and the final score to 1 decimal. -/
theorem consistency_cex :
    ((computeConsistency [1, 2] : ℚ) : ℝ) ≠ specConsistency [1, 2] := by
  have hcode : computeConsistency [1, 2] = 667/10 := by
    unfold computeConsistency
    rw [if_neg (by norm_num), if_neg (by norm_num [listAvg])]
    rw [computeStd_one_two]
    have havg : listAvg [1, 2] = 3/2 := by norm_num [listAvg]
    rw [havg]
    have hclamp : max 0 (min 100 (100 * (1 - (1/2 : ℚ) / (3/2)))) = 200/3 := by
      rw [min_eq_right (by norm_num), max_eq_right (by norm_num)]
      norm_num
    rw [hclamp]
    unfold pyRoundAt pyRound
    norm_num
  have hspec : specConsistency [1, 2] = 200/3 := by
    unfold specConsistency
    have hvar : listVariance [1, 2] = 1/4 := by
      norm_num [listVariance, listAvg]
    have hsqrt : Real.sqrt ((listVariance [1, 2] : ℚ) : ℝ) = 1/2 := by
      rw [show ((listVariance [1, 2] : ℚ) : ℝ) = (1/2 : ℝ) ^ 2 by rw [hvar]; norm_num]
      exact Real.sqrt_sq (by norm_num)
    rw [hsqrt]
    have havg : ((listAvg [1, 2] : ℚ) : ℝ) = 3/2 := by norm_num [listAvg]
    rw [havg]
    rw [min_eq_right (by norm_num), max_eq_right (by norm_num)]
    norm_num
  rw [hcode, hspec]
  norm_num

/-- C9 (amended): the consistency score is 100 for a series of fewer
than 2 values, 0 for a longer series with mean 0, and otherwise
`round(max(0, min(100, 100*(1 - round(std, 2)/mean))), 1)` — the
spec formula with the population standard deviation rounded to 2
decimals and the clamped result rounded to 1 decimal — which always
lies in `[0, 100]`. -/
theorem consistency_spec (values : List ℚ) :
    (values.length < 2 → computeConsistency values = 100)
    ∧ (2 ≤ values.length → listAvg values = 0 → computeConsistency values = 0)
    ∧ (2 ≤ values.length → listAvg values ≠ 0 →
        computeConsistency values
          = pyRoundAt (max 0 (min 100 (100 * (1 - computeStd values / listAvg values)))) 1
        ∧ 0 ≤ computeConsistency values ∧ computeConsistency values ≤ 100) := by
  refine ⟨?_, ?_, ?_⟩
  · intro h
    unfold computeConsistency
    rw [if_pos h]
  · intro h2 h0
    unfold computeConsistency
    rw [if_neg (by omega), if_pos h0]
  · intro h2 h0
    have heq : computeConsistency values
        = pyRoundAt (max 0 (min 100 (100 * (1 - computeStd values / listAvg values)))) 1 := by
      unfold computeConsistency
      rw [if_neg (by omega), if_neg h0]
    refine ⟨heq, ?_, ?_⟩
    · rw [heq]
      unfold pyRoundAt
      apply div_nonneg _ (by positivity)
      have := pyRound_nonneg
        (max 0 (min 100 (100 * (1 - computeStd values / listAvg values))) * 10 ^ 1)
        (by positivity)
      exact_mod_cast this
    · rw [heq]
      unfold pyRoundAt
      rw [div_le_iff₀ (by positivity : (0:ℚ) < 10 ^ 1)]
      have hle : max 0 (min 100 (100 * (1 - computeStd values / listAvg values))) ≤ 100 :=
        max_le (by norm_num) (min_le_left _ _)
      have harg : max 0 (min 100 (100 * (1 - computeStd values / listAvg values))) * 10 ^ 1
          ≤ ((1000 : ℤ) : ℚ) := by
        push_cast
        nlinarith
      have := pyRound_le _ 1000 harg
      have hc : ((pyRound (max 0 (min 100 (100 * (1 - computeStd values / listAvg values)))
          * 10 ^ 1) : ℤ) : ℚ) ≤ ((1000 : ℤ) : ℚ) := by exact_mod_cast this
      push_cast at hc ⊢
      linarith

/-- Witness for C9 (amended): the three branches at concrete series. -/
theorem consistency_spec_witness :
    computeConsistency [] = 100
    ∧ computeConsistency [1, -1] = 0
    ∧ 0 ≤ computeConsistency [1, 2] :=
  ⟨(consistency_spec []).1 (by norm_num),
   (consistency_spec [1, -1]).2.1 (by norm_num) (by norm_num [listAvg]),
   ((consistency_spec [1, 2]).2.2 (by norm_num) (by norm_num [listAvg])).2.1⟩

/-- Witness for C8: each guarded branch discharged at a concrete
probability. -/
theorem probToAmericanOdds_spec_witness :
    probToAmericanOdds (0 : ℚ) = 10000
    ∧ probToAmericanOdds (1 : ℚ) = -10000
    ∧ probToAmericanOdds (3/4 : ℚ) = pyRound (-100 * (3/4 : ℚ) / (1 - 3/4))
    ∧ probToAmericanOdds (1/4 : ℚ) = pyRound (100 * (1 - (1/4 : ℚ)) / (1/4)) :=
  ⟨(probToAmericanOdds_spec 0).1 le_rfl,
   (probToAmericanOdds_spec 1).2.1 le_rfl,
   (probToAmericanOdds_spec (3/4)).2.2.1 (by norm_num) (by norm_num) (by norm_num),
   (probToAmericanOdds_spec (1/4)).2.2.2.1 (by norm_num) (by norm_num)⟩

end Sportsball
